import Mathlib

/-!
Shallow embedding of the YASMI hierarchical state-machine engine
(src/yasmi.py, with the concrete machines of src/state_machine_1.py).

Events are ints in the source; queues are identified here by a numeric id
and a queue's content is the list of events it holds, oldest first.
The process-wide subscriber dict (insertion ordered, as Python dicts are)
is embedded as an association list from an event to the list of subscribed
queue ids; the Python value is a set of queues, embedded as a
duplicate-free list (set.add is an insert-if-absent).
-/

abbrev Event := Nat
abbrev QueueId := Nat

/-- Association-list embedding of the dict _event_subscribers. -/
abbrev Subs := List (Event × List QueueId)

/-- Python set.add on the embedded set of queues: insert if absent. -/
def insertNoDup (q : QueueId) (l : List QueueId) : List QueueId :=
  if q ∈ l then l else l ++ [q]

/-- One iteration of the loop body of subscribe_to for a single event:
if event not in _event_subscribers: _event_subscribers[event] = set();
_event_subscribers[event].add(event_queue).  A fresh key is appended at
the end of the dict, as in Python. -/
def subsAdd : Subs → Event → QueueId → Subs
  | [], e, q => [(e, [q])]
  | (e1, qs1) :: rest, e, q =>
      if e1 = e then (e1, insertNoDup q qs1) :: rest
      else (e1, qs1) :: subsAdd rest e q

/-- subscribe_to(events, event_queue): for event in events: ... -/
def subscribe_to (events : List Event) (event_queue : QueueId) (s : Subs) : Subs :=
  events.foldl (fun acc e => subsAdd acc e event_queue) s

/-- Dict lookup _event_subscribers[event], None when the key is absent. -/
def subsLookup : Subs → Event → Option (List QueueId)
  | [], _ => none
  | (e1, qs1) :: rest, e => if e1 = e then some qs1 else subsLookup rest e

/-- The queue q is currently subscribed to the event e. -/
def SubsMem (e : Event) (q : QueueId) (s : Subs) : Prop :=
  ∃ qs, subsLookup s e = some qs ∧ q ∈ qs

/-- event_queue.put_nowait(event): append at the tail of one queue. -/
def put_nowait (queues : QueueId → List Event) (q : QueueId) (e : Event) :
    QueueId → List Event :=
  fun x => if x = q then queues x ++ [e] else queues x

/-- The loop of publish: for event_queue in _event_subscribers[event]:
event_queue.put_nowait(event). -/
def publishFold (e : Event) (qs : List QueueId) (queues : QueueId → List Event) :
    QueueId → List Event :=
  qs.foldl (fun acc q => put_nowait acc q e) queues

/-- Python KeyError raised by a failed dict lookup. -/
inductive KeyError
  | mk
deriving DecidableEq

/-- publish(event): _event_subscribers[event] raises KeyError when the
event was never subscribed to; otherwise every subscribed queue receives
the event. -/
def publish (e : Event) (s : Subs) (queues : QueueId → List Event) :
    Except KeyError (QueueId → List Event) :=
  match subsLookup s e with
  | none => Except.error KeyError.mk
  | some qs => Except.ok (publishFold e qs queues)

/-- Well-formedness maintained by the source: the Python values are sets,
so every stored queue list is duplicate-free. -/
def SubsWF (s : Subs) : Prop :=
  ∀ p ∈ s, List.Nodup p.2

lemma insertNoDup_mem_self (q : QueueId) (l : List QueueId) :
    q ∈ insertNoDup q l := by
  unfold insertNoDup
  split
  · assumption
  · simp

lemma insertNoDup_of_mem {q : QueueId} {l : List QueueId} (h : q ∈ l) :
    insertNoDup q l = l := by
  simp [insertNoDup, h]

lemma insertNoDup_mem_mono {a q : QueueId} {l : List QueueId} (h : a ∈ l) :
    a ∈ insertNoDup q l := by
  unfold insertNoDup
  split
  · assumption
  · simp [h]

lemma insertNoDup_nodup {q : QueueId} {l : List QueueId} (h : l.Nodup) :
    (insertNoDup q l).Nodup := by
  unfold insertNoDup
  split
  · exact h
  · rename_i hq
    simp [List.nodup_append, h, hq]

lemma subsAdd_mem_self (s : Subs) (e : Event) (q : QueueId) :
    SubsMem e q (subsAdd s e q) := by
  induction s with
  | nil => exact ⟨[q], by simp [subsAdd, subsLookup], by simp⟩
  | cons p rest ih =>
      obtain ⟨e1, qs1⟩ := p
      by_cases hpe : e1 = e
      · subst hpe
        exact ⟨insertNoDup q qs1, by simp [subsAdd, subsLookup],
          insertNoDup_mem_self q qs1⟩
      · obtain ⟨qs, hl, hq⟩ := ih
        exact ⟨qs, by simp [subsAdd, subsLookup, hpe, hl], hq⟩

lemma subsAdd_mem_mono {s : Subs} {e : Event} {q : QueueId}
    (h : SubsMem e q s) (e2 : Event) (q2 : QueueId) :
    SubsMem e q (subsAdd s e2 q2) := by
  induction s with
  | nil => obtain ⟨qs, hl, _⟩ := h; simp [subsLookup] at hl
  | cons p rest ih =>
      obtain ⟨e1, qs1⟩ := p
      obtain ⟨qs, hl, hq⟩ := h
      by_cases hpe : e1 = e
      · subst hpe
        simp [subsLookup] at hl
        subst hl
        by_cases hpe2 : e1 = e2
        · subst hpe2
          exact ⟨insertNoDup q2 qs1, by simp [subsAdd, subsLookup],
            insertNoDup_mem_mono hq⟩
        · exact ⟨qs1, by simp [subsAdd, subsLookup, hpe2], hq⟩
      · simp [subsLookup, hpe] at hl
        by_cases hpe2 : e1 = e2
        · subst hpe2
          exact ⟨qs, by simp [subsAdd, subsLookup, hpe, hl], hq⟩
        · obtain ⟨qs2, hl2, hq2⟩ := ih ⟨qs, hl, hq⟩
          exact ⟨qs2, by simp [subsAdd, subsLookup, hpe, hpe2, hl2], hq2⟩

lemma subsAdd_of_mem {s : Subs} {e : Event} {q : QueueId}
    (h : SubsMem e q s) : subsAdd s e q = s := by
  induction s with
  | nil => obtain ⟨qs, hl, _⟩ := h; simp [subsLookup] at hl
  | cons p rest ih =>
      obtain ⟨e1, qs1⟩ := p
      obtain ⟨qs, hl, hq⟩ := h
      by_cases hpe : e1 = e
      · subst hpe
        simp [subsLookup] at hl
        subst hl
        simp [subsAdd, insertNoDup_of_mem hq]
      · simp [subsLookup, hpe] at hl
        simp [subsAdd, hpe, ih ⟨qs, hl, hq⟩]

lemma subscribe_mem_mono {s : Subs} {e : Event} {q : QueueId}
    (h : SubsMem e q s) (evs : List Event) (q2 : QueueId) :
    SubsMem e q (subscribe_to evs q2 s) := by
  induction evs generalizing s with
  | nil => exact h
  | cons a t ih => exact ih (subsAdd_mem_mono h a q2)

lemma subscribe_mem_self {evs : List Event} {e : Event} (q : QueueId)
    (he : e ∈ evs) (s : Subs) : SubsMem e q (subscribe_to evs q s) := by
  induction evs generalizing s with
  | nil => cases he
  | cons a t ih =>
      rcases List.mem_cons.mp he with rfl | ht
      · exact subscribe_mem_mono (subsAdd_mem_self s e q) t q
      · exact ih ht (subsAdd s a q)

lemma subscribe_of_all_mem {evs : List Event} {q : QueueId} {s : Subs}
    (h : ∀ e ∈ evs, SubsMem e q s) : subscribe_to evs q s = s := by
  induction evs with
  | nil => rfl
  | cons a t ih =>
      have ha : subsAdd s a q = s := subsAdd_of_mem (h a (by simp))
      show subscribe_to t q (subsAdd s a q) = s
      rw [ha]
      exact ih (fun e he => h e (by simp [he]))

lemma subsAdd_wf {s : Subs} (h : SubsWF s) (e : Event) (q : QueueId) :
    SubsWF (subsAdd s e q) := by
  induction s with
  | nil =>
      intro p hp
      simp [subsAdd] at hp
      simp [hp]
  | cons hd rest ih =>
      obtain ⟨e1, qs1⟩ := hd
      intro p hp
      by_cases hpe : e1 = e
      · simp only [subsAdd, if_pos hpe] at hp
        rcases List.mem_cons.mp hp with rfl | hp2
        · exact insertNoDup_nodup (h (e1, qs1) (by simp))
        · exact h p (by simp [hp2])
      · simp only [subsAdd, if_neg hpe] at hp
        rcases List.mem_cons.mp hp with rfl | hp2
        · exact h (e1, qs1) (by simp)
        · exact ih (fun r hr => h r (by simp [hr])) p hp2

lemma subscribe_wf {evs : List Event} {q : QueueId} {s : Subs}
    (h : SubsWF s) : SubsWF (subscribe_to evs q s) := by
  induction evs generalizing s with
  | nil => exact h
  | cons a t ih => exact ih (subsAdd_wf h a q)

lemma count_eq_one_of_nodup_mem {l : List QueueId} {q : QueueId}
    (hn : l.Nodup) (hm : q ∈ l) : l.count q = 1 := by
  induction l with
  | nil => cases hm
  | cons a t ih =>
      rcases List.mem_cons.mp hm with rfl | ht
      · have : q ∉ t := (List.nodup_cons.mp hn).1
        simp [List.count_cons, List.count_eq_zero.mpr this]
      · have ha : a ≠ q := by
          rintro rfl
          exact (List.nodup_cons.mp hn).1 ht
        have := ih (List.nodup_cons.mp hn).2 ht
        simp [List.count_cons, this, Ne.symm ha]

lemma publishFold_eval (e : Event) (qs : List QueueId)
    (queues : QueueId → List Event) (x : QueueId) :
    publishFold e qs queues x = queues x ++ List.replicate (qs.count x) e := by
  induction qs generalizing queues with
  | nil => simp [publishFold]
  | cons q t ih =>
      show publishFold e t (put_nowait queues q e) x = _
      rw [ih]
      by_cases hx : x = q
      · subst hx
        simp [put_nowait, List.count_cons, List.replicate_succ, List.append_assoc]
      · simp [put_nowait, hx, List.count_cons, Ne.symm hx]

/-- Claim C1 (counterexample): the claim says publish(e) with no queue ever
subscribed to e raises no error; but publish(0) on the empty subscriber map
is a failed dict lookup, a KeyError. -/
theorem C1_counterexample :
    publish 0 [] (fun _ => []) = Except.error KeyError.mk := rfl

/-- Claim C1 (amended): publishing an event to which no queue has ever been
subscribed raises a KeyError from the dict lookup; the lookup happens before
any queue mutation, so the subscriber map and every queue are unchanged
(the embedded publish is the only mutator and it returns the error without
producing an updated queue map). -/
theorem C1_publish_unsubscribed (e : Event) (s : Subs)
    (queues : QueueId → List Event) (h : subsLookup s e = none) :
    publish e s queues = Except.error KeyError.mk := by
  simp [publish, h]

/-- Claim C1 (witness): concrete instance of the amended claim. -/
theorem C1_witness :
    subsLookup [(3, [0])] 0 = none ∧
    publish 0 [(3, [0])] (fun _ => []) = Except.error KeyError.mk :=
  ⟨by decide, C1_publish_unsubscribed 0 [(3, [0])] (fun _ => []) (by decide)⟩

lemma subsLookup_exists_entry {s : Subs} {e : Event} {qs : List QueueId}
    (hl : subsLookup s e = some qs) : ∃ p ∈ s, p.2 = qs := by
  induction s with
  | nil => simp [subsLookup] at hl
  | cons p rest ih =>
      obtain ⟨e1, qs1⟩ := p
      by_cases hpe : e1 = e
      · subst hpe
        simp [subsLookup] at hl
        exact ⟨(e1, qs), by simp [hl]⟩
      · simp [subsLookup, hpe] at hl
        obtain ⟨p2, hp2, hp2e⟩ := ih hl
        exact ⟨p2, by simp [hp2], hp2e⟩

/-- Claim C8: subscribe_to is idempotent per (event, queue) pair: a second
subscribe_to(events, queue) call leaves the subscriber map identical, and a
publish of any event of the set afterwards appends exactly one copy of the
event to the queue. -/
theorem C8_subscribe_idempotent (evs : List Event) (q : QueueId) (s : Subs)
    (queues : QueueId → List Event) (hWF : SubsWF s)
    (e : Event) (he : e ∈ evs) :
    subscribe_to evs q (subscribe_to evs q s) = subscribe_to evs q s ∧
    ∃ out, publish e (subscribe_to evs q s) queues = Except.ok out ∧
      out q = queues q ++ [e] := by
  constructor
  · exact subscribe_of_all_mem (fun e2 he2 => subscribe_mem_self q he2 s)
  · obtain ⟨qs, hl, hq⟩ := subscribe_mem_self q he s
    have hpub : publish e (subscribe_to evs q s) queues
        = Except.ok (publishFold e qs queues) := by
      unfold publish
      rw [hl]
    refine ⟨publishFold e qs queues, hpub, ?_⟩
    have hn : qs.Nodup := by
      have hwf2 : SubsWF (subscribe_to evs q s) := subscribe_wf hWF
      obtain ⟨p, hp, hpe⟩ := subsLookup_exists_entry hl
      exact hpe ▸ hwf2 p hp
    rw [publishFold_eval, count_eq_one_of_nodup_mem hn hq]
    simp

/-- Claim C8 (witness): concrete instance with two events and a fresh map. -/
theorem C8_witness :
    SubsWF [] ∧ (0 : Event) ∈ [0, 1] ∧
    (subscribe_to [0, 1] 7 (subscribe_to [0, 1] 7 []) = subscribe_to [0, 1] 7 [] ∧
     ∃ out, publish 0 (subscribe_to [0, 1] 7 []) (fun _ => []) = Except.ok out ∧
       out 7 = (fun _ => ([] : List Event)) 7 ++ [0]) := by
  refine ⟨?_, ?_, ?_⟩
  · intro p hp
    cases hp
  · decide
  · exact C8_subscribe_idempotent [0, 1] 7 [] (fun _ => [])
      (by intro p hp; cases hp) 0 (by decide)

/-!
Active-State Registry.  State._active_states in the source is a Python set
whose elements are type objects: State.enter does
State._active_states.add(type(self)), while State.exit guards the removal
with "if self in State._active_states" before
State._active_states.remove(type(self)).  The guard compares the instance
self against a set of type objects, so a faithful embedding must keep
instances and types apart: the registry holds tagged Python values.
-/

/-- Tagged Python value: a type object or an instance, as distinguished by
Python identity and equality (an instance never equals a type object). -/
inductive PyVal
  | ty (t : Nat)
  | inst (i : Nat)
deriving DecidableEq

/-- Minimal view of a State object: its identity and its type. -/
structure StObj where
  instId : Nat
  tyId : Nat
deriving DecidableEq

/-- State.enter: State._active_states.add(type(self)).  Python set add:
insert if absent (the registry is kept as an insertion-ordered list). -/
def State_enter_registry (s : StObj) (reg : List PyVal) : List PyVal :=
  if PyVal.ty s.tyId ∈ reg then reg else reg ++ [PyVal.ty s.tyId]

/-- The registry tail of State.exit: if self in State._active_states:
State._active_states.remove(type(self)).  The membership test is on the
instance self, the removal on type(self). -/
def State_exit_registry (s : StObj) (reg : List PyVal) : List PyVal :=
  if PyVal.inst s.instId ∈ reg then
    List.filter (fun v => v != PyVal.ty s.tyId) reg
  else reg

/-- Claim C2: the claim requires a state to leave the Active-State Registry
once its exit has completed; but enter followed by a completed exit leaves
type(self) in the registry, because the removal guard tests the instance
self against a set that only ever holds type objects and is therefore never
taken.  Evaluated at a concrete state (instance id 7, type id 3) entered on
an empty registry. -/
theorem C2_registry_retains_exited_state :
    State_exit_registry ⟨7, 3⟩ (State_enter_registry ⟨7, 3⟩ []) = [PyVal.ty 3] ∧
    PyVal.ty 3 ∈ State_exit_registry ⟨7, 3⟩ (State_enter_registry ⟨7, 3⟩ []) := by
  decide

/-!
Cancellation flow (Claim C7).  Exceptions are embedded as Except values;
a try/except CancelledError block is the pyTryCancelled combinator.  A
coroutine cancelled while suspended at an await sees the await raise
CancelledError, so the body outcome of a cancelled wait is the error value.
-/

/-- asyncio.CancelledError. -/
inductive CancelledError
  | mk
deriving DecidableEq

/-- try: body ... except CancelledError as c: handler c. -/
def pyTryCancelled {a : Type} (body : Except CancelledError a)
    (handler : CancelledError → Except CancelledError a) :
    Except CancelledError a :=
  match body with
  | Except.ok v => Except.ok v
  | Except.error c => handler c

/-- Machine.manage under cancellation: the loop body is parked at an await
(the inbox get in subclasses, sleep in the base class), whose cancellation
raises; except CancelledError: raise re-raises it. -/
def Machine_manage_onCancel : Except CancelledError Unit :=
  pyTryCancelled (Except.error CancelledError.mk) (fun c => Except.error c)

/-- Machine._do when its own task is cancelled: the outer await of
manage_task raises CancelledError; the handler cancels manage_task, awaits
it (outcome Machine_manage_onCancel) and its inner except CancelledError
re-raises. -/
def Machine_do_onCancel : Except CancelledError Unit :=
  pyTryCancelled (Except.error CancelledError.mk) (fun _ =>
    pyTryCancelled Machine_manage_onCancel (fun c => Except.error c))

/-- State.exit around the awaited cancellation of do_task: try: await
self.do_task except CancelledError: pass. -/
def State_exit_awaitCancelled (t : Except CancelledError Unit) :
    Except CancelledError Unit :=
  pyTryCancelled t (fun _ => Except.ok ())

/-- Claim C7: a cancelled supervising loop re-raises the cancellation
(Machine.manage propagates the error), Machine._do re-raises it in turn up
the activity chain, and it is caught and discarded exactly at the awaiting
exit() that requested it, which completes normally. -/
theorem C7_cancellation_propagates_to_exit :
    Machine_manage_onCancel = Except.error CancelledError.mk ∧
    Machine_do_onCancel = Except.error CancelledError.mk ∧
    State_exit_awaitCancelled Machine_do_onCancel = Except.ok () :=
  ⟨rfl, rfl, rfl⟩

/-!
Trace model of exit and transition (Claims C3, C4, C9).

A currently active branch of the hierarchy is a tree: a leaf State or a
Machine together with its active sub-state.  The observable steps of the
engine are traced.  From the source:

State.exit (yasmi.py 171-189): if do_task is set, cancel it and await it
(the CancelledError is caught there, C7); then self.exit_(); the registry
removal attempt is a no-op (C2) and silent here.  For a leaf the cancelled
activity State._do is a bare sleep loop: unwinding it performs no
observable step.  For a Machine the cancelled activity Machine._do cancels
and awaits manage_task, whose except CancelledError branch (base class
raise, subclass pass) performs no observable step either: in particular no
code path exits the machine's active sub-state.  Machine.exit then calls
self.exit_() a second time after the inherited State.exit returned, which
itself had already dispatched dynamically to the same exit_ (C9).

State.transition_to (yasmi.py 119-146): await self.exit(); if action:
action(); new_state.enter(); if not new_state.is_final: new_state.do();
return new_state.

Machine.transition_to (yasmi.py 240-264): capture history_state (silent
field write, modelled with the field model below), await self.state.exit()
on the machine's direct active sub-state, then the inherited sequence,
then return new_state.
-/

/-- Observable engine steps. -/
inductive Act
  | cancel (id : Nat)
  | ack (id : Nat)
  | exitB (id : Nat)
  | action
  | enterB (id : Nat)
  | start (id : Nat)
deriving DecidableEq

/-- An active branch: a leaf state, or a machine with its active sub-state.
hasTask records whether do_task is set (a running activity). -/
inductive STree
  | leaf (id : Nat) (isFinal : Bool) (hasTask : Bool)
  | node (id : Nat) (hasTask : Bool) (sub : STree)
deriving DecidableEq

def idOf : STree → Nat
  | STree.leaf i _ _ => i
  | STree.node i _ _ => i

def isFinalOf : STree → Bool
  | STree.leaf _ f _ => f
  | STree.node _ _ _ => false

/-- Steps of exit() on a state, from State.exit and Machine.exit. -/
def exitTrace : STree → List Act
  | STree.leaf i _ ht =>
      (if ht then [Act.cancel i, Act.ack i] else []) ++ [Act.exitB i]
  | STree.node i ht _ =>
      (if ht then [Act.cancel i, Act.ack i] else [])
        ++ [Act.exitB i] ++ [Act.exitB i]

/-- State.transition_to: trace of steps, and the returned state. -/
def State_transition_to (cur dest : STree) (hasAction : Bool) :
    List Act × STree :=
  (exitTrace cur
     ++ (if hasAction then [Act.action] else [])
     ++ [Act.enterB (idOf dest)]
     ++ (if isFinalOf dest then [] else [Act.start (idOf dest)]),
   dest)

/-- Machine.transition_to: the machine first exits its direct active
sub-state, then runs the inherited transition on itself. -/
def Machine_transition_to (m dest : STree) (hasAction : Bool) :
    List Act × STree :=
  match m with
  | STree.node i ht sub =>
      (exitTrace sub ++ (State_transition_to (STree.node i ht sub) dest hasAction).1,
       dest)
  | l => State_transition_to l dest hasAction

/-- Teardown steps: those belonging to the exit of the old branch. -/
def isTeardownStep : Act → Bool
  | Act.cancel _ => true
  | Act.ack _ => true
  | Act.exitB _ => true
  | _ => false

lemma exitTrace_all_teardown (t : STree) :
    ∀ a ∈ exitTrace t, isTeardownStep a = true := by
  cases t with
  | leaf i f ht =>
      intro a ha
      cases ht <;> simp [exitTrace] at ha <;>
        rcases ha with rfl | rfl | rfl <;> rfl
  | node i ht sub =>
      intro a ha
      cases ht <;> simp [exitTrace] at ha <;>
        rcases ha with rfl | rfl | rfl | rfl <;> rfl

lemma exitTrace_exitB_id {t : STree} {k : Nat} (h : Act.exitB k ∈ exitTrace t) :
    k = idOf t := by
  cases t with
  | leaf i f ht =>
      cases ht <;> simp [exitTrace, idOf] at h ⊢ <;> tauto
  | node i ht sub =>
      cases ht <;> simp [exitTrace, idOf] at h ⊢ <;> tauto

lemma not_mem_exitTrace_of_not_teardown {t : STree} {a : Act}
    (h : isTeardownStep a = false) : a ∉ exitTrace t := by
  intro hmem
  rw [exitTrace_all_teardown t a hmem] at h
  cases h

/-- Claim C4: State.transition_to performs, in order: exit of the current
state, then the optional action exactly once, then entry of the
destination, then the start of the destination's activity exactly when the
destination is not final, and returns the destination. -/
theorem C4_transition_order (cur dest : STree) (hA : Bool) :
    (State_transition_to cur dest hA).2 = dest ∧
    (State_transition_to cur dest hA).1
      = exitTrace cur ++ (if hA then [Act.action] else [])
          ++ [Act.enterB (idOf dest)]
          ++ (if isFinalOf dest then [] else [Act.start (idOf dest)]) ∧
    (State_transition_to cur dest hA).1.count Act.action
      = (if hA then 1 else 0) ∧
    (Act.start (idOf dest) ∈ (State_transition_to cur dest hA).1
      ↔ isFinalOf dest = false) := by
  refine ⟨rfl, rfl, ?_, ?_⟩
  · have hz : (exitTrace cur).count Act.action = 0 :=
      List.count_eq_zero.mpr (not_mem_exitTrace_of_not_teardown rfl)
    cases hA <;> cases hdf : isFinalOf dest <;>
      simp [State_transition_to, List.count_append, hz, hdf, List.count_cons]
  · have hs : Act.start (idOf dest) ∉ exitTrace cur :=
      not_mem_exitTrace_of_not_teardown rfl
    cases hA <;> cases hdf : isFinalOf dest <;>
      simp [State_transition_to, hdf, hs]

/-- Claim C9: one call of Machine.exit runs the exit behaviour exit_ twice
(once from the inherited State.exit via dynamic dispatch, once again
directly), while a plain State runs it once. -/
theorem C9_machine_exit_behaviour_twice (i j : Nat) (ht hlt f : Bool)
    (sub : STree) :
    (exitTrace (STree.node i ht sub)).count (Act.exitB i) = 2 ∧
    (exitTrace (STree.leaf j f hlt)).count (Act.exitB j) = 1 := by
  refine ⟨?_, ?_⟩
  · cases ht <;> simp [exitTrace, List.count_append, List.count_cons]
  · cases hlt <;> simp [exitTrace, List.count_append, List.count_cons]

/-- Claim C3 (counterexample): transitioning away from a machine (id 0)
whose active sub-state is itself a machine (id 1) with an active leaf
(id 2, running activity) enters the destination (id 9) while the leaf
descendant was neither cancelled nor exited: the teardown is not
recursive, contradicting the claim that all active descendants are unwound
before the destination's entry. -/
theorem C3_counterexample :
    Act.enterB 9 ∈ (Machine_transition_to
        (STree.node 0 true (STree.node 1 true (STree.leaf 2 false true)))
        (STree.leaf 9 false true) true).1 ∧
    Act.cancel 2 ∉ (Machine_transition_to
        (STree.node 0 true (STree.node 1 true (STree.leaf 2 false true)))
        (STree.leaf 9 false true) true).1 ∧
    Act.exitB 2 ∉ (Machine_transition_to
        (STree.node 0 true (STree.node 1 true (STree.leaf 2 false true)))
        (STree.leaf 9 false true) true).1 := by
  decide

lemma entry_steps_cases {hA c : Bool} {x y : Nat} {b : Act}
    (hb : b ∈ ((if hA then [Act.action] else [])
        ++ [Act.enterB x] ++ (if c then [] else [Act.start y]))) :
    b = Act.action ∨ b = Act.enterB x ∨ b = Act.start y := by
  cases hA <;> cases c <;> simp at hb <;> tauto

/-- Claim C3 (amended): in every Machine.transition_to, every step of the
old branch's teardown that does occur precedes the action and every entry
step of the destination, with the machine's own cancellation acknowledged
and its exit behaviour run in the teardown part; but the teardown is one
level deep only: exit behaviour runs only for the machine itself and its
direct active sub-state, never for a deeper descendant. -/
theorem C3_exit_precedes_entry_one_level (i : Nat) (ht : Bool)
    (sub dest : STree) (hA : Bool) :
    ∃ A B, (Machine_transition_to (STree.node i ht sub) dest hA).1 = A ++ B ∧
      (∀ a ∈ A, isTeardownStep a = true) ∧
      (∀ b ∈ B, isTeardownStep b = false) ∧
      Act.exitB i ∈ A ∧
      Act.enterB (idOf dest) ∈ B ∧
      (∀ k, Act.exitB k ∈ A ++ B → k = i ∨ k = idOf sub) := by
  refine ⟨exitTrace sub ++ exitTrace (STree.node i ht sub),
    (if hA then [Act.action] else []) ++ [Act.enterB (idOf dest)]
      ++ (if isFinalOf dest then [] else [Act.start (idOf dest)]),
    ?_, ?_, ?_, ?_, ?_, ?_⟩
  · simp [Machine_transition_to, State_transition_to, List.append_assoc]
  · intro a ha
    rcases List.mem_append.mp ha with h | h
    · exact exitTrace_all_teardown sub a h
    · exact exitTrace_all_teardown _ a h
  · intro b hb
    rcases entry_steps_cases hb with rfl | rfl | rfl <;> rfl
  · apply List.mem_append.mpr
    right
    cases ht <;> simp [exitTrace]
  · simp
  · intro k hk
    rcases List.mem_append.mp hk with h | h
    · rcases List.mem_append.mp h with h2 | h2
      · exact Or.inr (exitTrace_exitB_id h2)
      · exact Or.inl (exitTrace_exitB_id h2)
    · rcases entry_steps_cases h with h3 | h3 | h3 <;> cases h3

/-!
Field model of a Machine object (Claims C5, C6, C10).

Machine.__init__ (yasmi.py 214-238) sets has_history (None coerces to a
false truth value, embedded as Bool), initial, final, state := initial,
history_state := None and a fresh event_queue.  Sub-states are identified
by numeric ids; initial is always an actual State object in the source
(a required constructor argument), hence always truthy.
-/

structure MachineObj where
  has_history : Bool
  initial : Nat
  final : Option Nat
  state : Nat
  history_state : Option Nat
  event_queue : List Event
deriving DecidableEq

/-- History capture at the head of Machine.transition_to (yasmi.py
258-260): self.history_state = self.state if self.has_history and not
self.state.is_final else None.  isFinal gives the is_final attribute of
the sub-state with a given id. -/
def Machine_captureHistory (isFinal : Nat → Bool) (m : MachineObj) :
    MachineObj :=
  { m with history_state :=
      if m.has_history && !(isFinal m.state) then some m.state else none }

/-- Machine.exit_ (yasmi.py 279-291): if self.initial: self.state =
self.initial.  The initial attribute is a State object, always truthy. -/
def Machine_exit_fields (m : MachineObj) : MachineObj :=
  { m with state := m.initial }

/-- Effect of Machine.exit on the machine's own fields: the inherited
State.exit cancels and awaits the activity (no field change), calls exit_
(dispatching to Machine.exit_), and Machine.exit calls exit_ once more. -/
def Machine_exit_allFields (m : MachineObj) : MachineObj :=
  Machine_exit_fields (Machine_exit_fields m)

/-- Net effect of Machine.transition_to on the departing machine's own
fields: history capture, then exit of the direct active sub-state (a
different object), then the machine's own exit. -/
def Machine_depart_fields (isFinal : Nat → Bool) (m : MachineObj) :
    MachineObj :=
  Machine_exit_allFields (Machine_captureHistory isFinal m)

/-- State.enter (yasmi.py 148-158) on a machine: only the registry is
touched, no field of the machine object changes; Machine does not override
enter. -/
def Machine_enter (s : StObj) (m : MachineObj) (reg : List PyVal) :
    MachineObj × List PyVal :=
  (m, State_enter_registry s reg)

/-- Machine._clear_event_queue (yasmi.py 308-310): drains the queue.  The
helper is defined in the source but has no call site anywhere in the
repository. -/
def Machine_clear_event_queue (m : MachineObj) : MachineObj :=
  { m with event_queue := [] }

/-- Entry destination chosen by StateMachineB.manage (state_machine_1.py
99-104): runs only when self.state and self.final are truthy, then
destination = self.history_state if self.history_state else self.state_A.
The state attribute is always a State object, hence truthy. -/
def smB_entry_destination (state_A : Nat) (m : MachineObj) : Option Nat :=
  match m.final with
  | none => none
  | some _ =>
      some (match m.history_state with
            | some h => h
            | none => state_A)

/-- Entry destination chosen by StateMachineA.manage (state_machine_1.py
67-72): destination = self.history_state if self.history_state else
(self.state_AA if StateMachineA.x == 0 else self.state_AB). -/
def smA_entry_destination (x state_AA state_AB : Nat) (m : MachineObj) : Nat :=
  match m.history_state with
  | some h => h
  | none => if x = 0 then state_AA else state_AB

/-- StateAA.enter (state_machine_1.py 161-165): StateMachineA.x += 1. -/
def StateAA_enter_x (x : Nat) : Nat := x + 1

/-- Claim C5: for a Machine with hasHistory true, re-entry lands on the
sub-state that was active at the previous departure, unless that sub-state
was the machine's final state, in which case it lands on the default
destination state_A.  isFinal is the is_final attribute; the hypothesis
records that the only final-flagged sub-state is the machine's final one,
as in the source machines. -/
theorem C5_history_reentry (isFinal : Nat → Bool) (m : MachineObj)
    (state_A : Nat) (hh : m.has_history = true)
    (hsome : m.final.isSome)
    (hiff : ∀ x, isFinal x = true ↔ m.final = some x) :
    smB_entry_destination state_A (Machine_depart_fields isFinal m)
      = some (if m.final = some m.state then state_A else m.state) := by
  cases hfm : m.final with
  | none => rw [hfm] at hsome; cases hsome
  | some fin =>
      by_cases hf : fin = m.state
      · have hif : isFinal m.state = true := (hiff m.state).mpr (by rw [hfm, hf])
        simp [Machine_depart_fields, Machine_exit_allFields, Machine_exit_fields,
          Machine_captureHistory, smB_entry_destination, hh, hif, hfm, hf]
      · have hif : isFinal m.state = false := by
          cases hb : isFinal m.state
          · rfl
          · have h2 := (hiff m.state).mp hb
            rw [hfm] at h2
            exact absurd (Option.some.inj h2) hf
        simp [Machine_depart_fields, Machine_exit_allFields, Machine_exit_fields,
          Machine_captureHistory, smB_entry_destination, hh, hif, hfm, hf]

/-- Claim C5 (witness): a machine with history whose active sub-state 3 is
not final resumes at 3; evaluated concretely. -/
theorem C5_witness :
    smB_entry_destination 1
      (Machine_depart_fields (fun x => x == 5)
        { has_history := true, initial := 0, final := some 5, state := 3,
          history_state := none, event_queue := [] })
      = some 3 := by
  have h := C5_history_reentry (fun x => x == 5)
    { has_history := true, initial := 0, final := some 5, state := 3,
      history_state := none, event_queue := [] }
    1 rfl rfl
    (by
      intro x
      rw [beq_iff_eq]
      exact ⟨fun hx => by rw [hx], fun hx => (Option.some.inj hx).symm⟩)
  rw [h]
  decide

/-- Claim C6 (counterexample): the claim says every entry of a
hasHistory=false Machine lands on its initial sub-state regardless of
history; but StateMachineA lands on state_AA (id 2) on its first entry when
the class counter x is 0, and on state_AB (id 3) on its next entry, because
entering StateAA incremented x — two entries of the same machine land on
different sub-states, and the second is not the default first one. -/
theorem C6_counterexample :
    smA_entry_destination 0 2 3
      { has_history := false, initial := 0, final := some 9, state := 0,
        history_state := none, event_queue := [] } = 2 ∧
    smA_entry_destination (StateAA_enter_x 0) 2 3
      (Machine_depart_fields (fun z => z == 9)
        { has_history := false, initial := 0, final := some 9, state := 2,
          history_state := none, event_queue := [] }) = 3 ∧
    (3 : Nat) ≠ 2 := by
  decide

/-- Claim C6 (amended): for a Machine with hasHistory false, the departure
always leaves history_state = None, so the entry destination is
independent of whichever sub-state was active at any prior exit; for
StateMachineA it is state_AA exactly when the class counter x is 0 (the
first-ever entry) and state_AB on every later entry. -/
theorem C6_no_history_entry_independent (isFinal : Nat → Bool)
    (m : MachineObj) (x aa ab : Nat) (h : m.has_history = false) :
    (Machine_depart_fields isFinal m).history_state = none ∧
    smA_entry_destination x aa ab (Machine_depart_fields isFinal m)
      = (if x = 0 then aa else ab) := by
  constructor
  · simp [Machine_depart_fields, Machine_exit_allFields, Machine_exit_fields,
      Machine_captureHistory, h]
  · simp [Machine_depart_fields, Machine_exit_allFields, Machine_exit_fields,
      Machine_captureHistory, smA_entry_destination, h]

/-- Claim C6 (witness): concrete instance of the amended claim. -/
theorem C6_witness :
    (Machine_depart_fields (fun z => z == 9)
      { has_history := false, initial := 0, final := some 9, state := 2,
        history_state := none, event_queue := [] }).history_state = none ∧
    smA_entry_destination 1 2 3
      (Machine_depart_fields (fun z => z == 9)
        { has_history := false, initial := 0, final := some 9, state := 2,
          history_state := none, event_queue := [] })
      = (if 1 = 0 then 2 else 3) :=
  C6_no_history_entry_independent (fun z => z == 9)
    { has_history := false, initial := 0, final := some 9, state := 2,
      history_state := none, event_queue := [] } 1 2 3 rfl

/-- Claim C10: no embedded engine operation removes events from a
Machine's inbox: entry, exit behaviour, full exit, history capture and
departure all leave event_queue unchanged, and publish only ever appends
to a queue (the drained-queue helper _clear_event_queue has no call site
in the repository). -/
theorem C10_event_queue_preserved (s : StObj) (m : MachineObj)
    (reg : List PyVal) (isFinal : Nat → Bool) (e : Event)
    (qs : List QueueId) (queues : QueueId → List Event) (q : QueueId) :
    (Machine_enter s m reg).1.event_queue = m.event_queue ∧
    (Machine_exit_fields m).event_queue = m.event_queue ∧
    (Machine_exit_allFields m).event_queue = m.event_queue ∧
    (Machine_captureHistory isFinal m).event_queue = m.event_queue ∧
    (Machine_depart_fields isFinal m).event_queue = m.event_queue ∧
    publishFold e qs queues q = queues q ++ List.replicate (qs.count q) e :=
  ⟨rfl, rfl, rfl, rfl, rfl, publishFold_eval e qs queues q⟩
